import Mathlib

/-
  Verification development for the hybridlane repository (pnnl/hybridlane).

  Shallow embedding of:
  - the hardware qumode address codec (`devices/sandia_qscout/jaqal.py`, class `Qumode`);
  - the qubit-conditioned operator algebra
    (`ops/op_math/qubit_conditioned.py`, class `QubitConditioned`);
  - the resource-representation flattening
    (`decomposition/resources.py`, `qubit_conditioned_resource_rep`);
  - the layout pre-checks and CSP construction
    (`devices/sandia_qscout/device.py`, `layout_wires`, `_construct_csp`);
  - the device constructor (`devices/sandia_qscout/device.py`, `QscoutIonTrap.__init__`);
  - the static analyzer contract (`sa.analyze`), modelled from the spec because its
    implementation files (`sa/base.py`, `sa/infer_wires.py`) are not part of the
    provided sources.

  Python wires are opaque hashable labels (ints, strings, or `Qumode` dataclass
  instances); strings are modelled as `List Char`.  Gate parameters (Python floats,
  used purely structurally by the code under verification) are modelled as `ℚ` so
  that all definitions stay executable and decidable.
-/

-- ===========================================================================
-- Hardware qumode addresses and their string codec
-- (devices/sandia_qscout/jaqal.py, class Qumode)
-- ===========================================================================

/-- Hardware qumode on the ion trap device (`jaqal.Qumode` frozen dataclass with
fields `manifold` and `index`).  The dataclass annotates `manifold: Literal[0, 1]`
but Python does not enforce the annotation, so the field is a plain natural here;
the codec below only ever produces 0 or 1. -/
structure Qumode where
  manifold : Nat
  index : Nat
deriving DecidableEq

/-- Decimal digit character for `n < 10` (used by Python's `str` formatting of
non-negative integers in `f"m{manifold}i{index}"`). -/
def digitChar (n : Nat) : Char :=
  match n with
  | 0 => '0' | 1 => '1' | 2 => '2' | 3 => '3' | 4 => '4'
  | 5 => '5' | 6 => '6' | 7 => '7' | 8 => '8' | _ => '9'

/-- Structural helper for `natToDecChars`: `fuel` bounds the recursion depth so
that the definition reduces inside the kernel.  For `n < fuel` it computes the
decimal digits of `n`, most significant first. -/
def natToDecCharsAux (fuel : Nat) (n : Nat) : List Char :=
  match fuel with
  | 0 => []
  | fuel + 1 =>
      if n < 10 then [digitChar n]
      else natToDecCharsAux fuel (n / 10) ++ [digitChar (n % 10)]

/-- Decimal representation of a natural number, most significant digit first
(Python `str(n)` for `n ≥ 0`). -/
def natToDecChars (n : Nat) : List Char := natToDecCharsAux (n + 1) n

theorem natToDecCharsAux_fuel_irrel :
    ∀ fuel fuel' n, n < fuel → n < fuel' →
      natToDecCharsAux fuel n = natToDecCharsAux fuel' n := by
  intro fuel
  induction fuel with
  | zero => intro fuel' n h; omega
  | succ fuel ih =>
    intro fuel' n h h'
    match fuel', h' with
    | fuel' + 1, _ =>
      by_cases h10 : n < 10
      · simp [natToDecCharsAux, h10]
      · have hdl : n / 10 < n := Nat.div_lt_self (by omega) (by omega : (1:Nat) < 10)
        have hd : n / 10 < fuel := by omega
        have hd' : n / 10 < fuel' := by omega
        simp only [natToDecCharsAux, if_neg h10]
        rw [ih fuel' (n / 10) hd hd']

theorem natToDecChars_step (n : Nat) :
    natToDecChars n =
      if n < 10 then [digitChar n]
      else natToDecChars (n / 10) ++ [digitChar (n % 10)] := by
  show natToDecCharsAux (n + 1) n = _
  by_cases h10 : n < 10
  · simp [natToDecCharsAux, h10]
  · have hdl : n / 10 < n := Nat.div_lt_self (by omega) (by omega : (1:Nat) < 10)
    simp only [natToDecCharsAux, if_neg h10]
    rw [natToDecCharsAux_fuel_irrel n (n / 10 + 1) (n / 10) hdl (by omega)]
    rfl

/-- `Qumode.__str__`: the canonical encoding `"m{manifold}i{index}"`. -/
def Qumode.toChars (q : Qumode) : List Char :=
  'm' :: natToDecChars q.manifold ++ 'i' :: natToDecChars q.index

/-- Numeric value of a digit character (`int` applied to a digit string works
digit-by-digit like this fold). -/
def charToDigit (c : Char) : Nat := c.toNat - 48

/-- Value of a decimal digit string (Python `int(s)` on a digit-only string). -/
def decCharsToNat (l : List Char) : Nat :=
  l.foldl (fun acc c => 10 * acc + charToDigit c) 0

/-- The regular expression `^m([01])i(\d+)$` from `Qumode.try_from_string` as a
predicate on character lists: a literal `m`, one digit `0` or `1`, a literal `i`,
then one or more decimal digits, and nothing else. -/
def matchesQumodePattern (s : List Char) : Bool :=
  match s with
  | 'm' :: c :: 'i' :: rest =>
      (c = '0' || c = '1') && !rest.isEmpty && rest.all Char.isDigit
  | _ => false

/-- `Qumode.try_from_string`: run the regex `^m([01])i(\d+)$`; on no match return
`none`, otherwise build the qumode from the two captured groups. -/
def Qumode.try_from_string (s : List Char) : Option Qumode :=
  if matchesQumodePattern s then
    match s with
    | _ :: c :: _ :: rest => some ⟨charToDigit c, decCharsToNat rest⟩
    | _ => none
  else none

-- Basic facts about the decimal representation, used for the codec round-trip.

theorem natToDecChars_ne_nil (n : Nat) : natToDecChars n ≠ [] := by
  rw [natToDecChars_step]
  split
  · simp
  · simp

theorem digitChar_isDigit : ∀ k, k < 10 → (digitChar k).isDigit = true := by decide

theorem natToDecChars_all_digits (n : Nat) : (natToDecChars n).all Char.isDigit = true := by
  induction n using Nat.strong_induction_on with
  | _ n ih =>
    rw [natToDecChars_step]
    split
    · rename_i h
      simp [digitChar_isDigit n h]
    · rename_i h
      rw [List.all_append]
      have h1 := ih (n / 10) (Nat.div_lt_self (by omega) (by omega : (1:Nat) < 10))
      have h2 := digitChar_isDigit (n % 10) (Nat.mod_lt _ (by omega))
      simp [h1, h2]

theorem charToDigit_digitChar : ∀ n, n < 10 → charToDigit (digitChar n) = n := by decide

theorem decCharsToNat_append_digit (l : List Char) (c : Char) :
    decCharsToNat (l ++ [c]) = 10 * decCharsToNat l + charToDigit c := by
  simp [decCharsToNat, List.foldl_append]

theorem decCharsToNat_natToDecChars (n : Nat) :
    decCharsToNat (natToDecChars n) = n := by
  induction n using Nat.strong_induction_on with
  | _ n ih =>
    rw [natToDecChars_step]
    split
    · rename_i h
      simp [decCharsToNat, charToDigit_digitChar n h]
    · rename_i h
      rw [decCharsToNat_append_digit]
      rw [ih (n / 10) (Nat.div_lt_self (by omega) (by omega : (1:Nat) < 10))]
      rw [charToDigit_digitChar (n % 10) (Nat.mod_lt _ (by omega))]
      omega

/-- C8: the hardware qumode address codec round-trips exactly: for every
manifold ∈ {0,1} and every index, decoding the canonical string
`"m{manifold}i{index}"` recovers the same `Qumode`; and decoding any string that
does not match `^m[01]i\d+$` returns `none`. -/
theorem c8_qumode_codec_roundtrip :
    (∀ (m i : Nat), m ≤ 1 →
        Qumode.try_from_string (Qumode.toChars ⟨m, i⟩) = some ⟨m, i⟩) ∧
    (∀ s : List Char, matchesQumodePattern s = false →
        Qumode.try_from_string s = none) := by
  constructor
  · intro m i hm
    have hm10 : m < 10 := by omega
    have hchars : Qumode.toChars ⟨m, i⟩ = 'm' :: digitChar m :: 'i' :: natToDecChars i := by
      show 'm' :: natToDecChars m ++ 'i' :: natToDecChars i = _
      rw [natToDecChars_step, if_pos hm10]
      rfl
    rw [hchars]
    have hmatch :
        matchesQumodePattern ('m' :: digitChar m :: 'i' :: natToDecChars i) = true := by
      show ((digitChar m = '0' || digitChar m = '1') && !(natToDecChars i).isEmpty
        && (natToDecChars i).all Char.isDigit) = true
      have h01 : (digitChar m = '0' || digitChar m = '1') = true := by
        interval_cases m <;> decide
      have hne : (natToDecChars i).isEmpty = false := by
        cases hni : natToDecChars i with
        | nil => exact absurd hni (natToDecChars_ne_nil i)
        | cons a l => rfl
      rw [h01, hne, natToDecChars_all_digits]
      rfl
    rw [Qumode.try_from_string, if_pos hmatch]
    rw [charToDigit_digitChar m hm10, decCharsToNat_natToDecChars]
  · intro s hs
    unfold Qumode.try_from_string
    rw [hs]
    rfl

/-- Witness for C8 at concrete inputs: `"m1i10"` decodes back to `Qumode 1 10`
(the encoding of manifold 1, index 10), and the non-matching strings `"m2i3"`
and `"m1i"` decode to `none`. -/
theorem c8_qumode_codec_roundtrip_witness :
    Qumode.try_from_string (Qumode.toChars ⟨1, 10⟩) = some ⟨1, 10⟩ ∧
    Qumode.try_from_string ['m', '2', 'i', '3'] = none ∧
    Qumode.try_from_string ['m', '1', 'i'] = none :=
  ⟨c8_qumode_codec_roundtrip.1 1 10 (by decide),
   c8_qumode_codec_roundtrip.2 ['m', '2', 'i', '3'] (by decide),
   c8_qumode_codec_roundtrip.2 ['m', '1', 'i'] (by decide)⟩

-- ===========================================================================
-- Circuit wires
-- ===========================================================================

/-- A circuit wire label: Python wires are opaque hashables — in this repository
integers, strings, or `Qumode` hardware addresses. -/
inductive Wire where
  | nat (n : Nat)
  | str (s : List Char)
  | mode (q : Qumode)
deriving DecidableEq

-- ===========================================================================
-- Qubit-conditioned operator algebra (ops/op_math/qubit_conditioned.py)
-- ===========================================================================

/-- Operator classes appearing in `qubit_conditioned.py` and
`decomposition/resources.py` (Python `type(op)` tags).  `other` keeps the class
universe open, as Python has arbitrarily many further operator classes. -/
inductive OpClass where
  | Displacement
  | Fourier
  | Squeezing
  | Beamsplitter
  | TwoModeSqueezing
  | TwoModeSum
  | Rotation
  | RZ
  | IsingZZ
  | MultiRZ
  | Identity
  | GlobalPhase
  | CNOT
  | ConditionalDisplacement
  | ConditionalParity
  | ConditionalSqueezing
  | ConditionalBeamsplitter
  | ConditionalTwoModeSqueezing
  | ConditionalTwoModeSum
  | ConditionalRotation
  | QubitConditionedCls
  | other (name : List Char)
deriving DecidableEq

/-- A non-symbolic gate application: its class, its parameter tuple (`op.data`)
and its wires, mirroring pennylane's `(type, data, wires)` view of an operator. -/
structure GateData where
  cls : OpClass
  data : List ℚ
  wires : List Wire
deriving DecidableEq

/-- An operator: either a plain gate application or a symbolic
`QubitConditioned(base, control_wires)` node. -/
inductive Op where
  | gate (g : GateData)
  | qcond (base : Op) (controlWires : List Wire)
deriving DecidableEq

/-- `type(op)` as an `OpClass` tag: `QubitConditioned` nodes have class
`QubitConditionedCls`. -/
def Op.cls : Op → OpClass
  | .gate g => g.cls
  | .qcond _ _ => .QubitConditionedCls

/-- `op.wires`: for `QubitConditioned`, the property returns
`control_wires + base.wires`. -/
def Op.wires : Op → List Wire
  | .gate g => g.wires
  | .qcond base cws => cws ++ base.wires

/-- `op.data`: a `SymbolicOp` exposes its base's trainable parameters. -/
def Op.data : Op → List ℚ
  | .gate g => g.data
  | .qcond base _ => base.data

/-- Errors raised while constructing `QubitConditioned`:
`Wires(control_wires)` raises a `WireError` on duplicate labels, and
`QubitConditioned.__init__` raises a `ValueError` when the control wires
intersect the base's wires. -/
inductive ConstructError where
  | wireError
  | valueError
deriving DecidableEq

/-- `QubitConditioned.__init__` (also `hqml.qcond` / `make_conditioned`):
convert `control_wires` to a `Wires` object (duplicates rejected), then raise
`ValueError` if `base.wires & control_wires` is non-empty, else build the node. -/
def mkQubitConditioned (base : Op) (controlWires : List Wire) :
    Except ConstructError Op :=
  if controlWires.Nodup then
    if base.wires.any (fun w => decide (w ∈ controlWires)) then
      .error .valueError
    else
      .ok (.qcond base controlWires)
  else .error .wireError

/-- Symbolic generator expressions: `qml.Z(w)` factors, an underlying gate's own
generator (opaque here, as pennylane computes it per class), and `qml.prod`. -/
inductive GenExpr where
  | Z (w : Wire)
  | opGenerator (g : GateData)
  | prod (factors : List GenExpr)

/-- Which operator classes override `generator()` in the sources available:
the pennylane rotation-like gates do; no hybridlane gate class in the
repository's source files defines a `generator` method. This table only feeds
hypotheses of theorems, never the computations under verification. -/
def opClassHasGenerator : OpClass → Bool
  | .RZ | .IsingZZ | .MultiRZ | .GlobalPhase => true
  | _ => false

/-- `op.has_generator`: `QubitConditioned` delegates to the base. -/
def Op.hasGenerator : Op → Bool
  | .gate g => opClassHasGenerator g.cls
  | .qcond base _ => base.hasGenerator

/-- `op.generator()`: for `QubitConditioned`,
`qml.prod(*[qml.Z(w) for w in control_wires], base.generator())`. -/
def Op.generator : Op → GenExpr
  | .gate g => .opGenerator g
  | .qcond base cws => .prod (cws.map GenExpr.Z ++ [base.generator])

/-- The static lookup table `base_to_custom_conditioned_op()` mapping
`(base_operator_type, num_control_wires)` to the known closed-form conditioned
gate class. -/
def base_to_custom_conditioned_op : OpClass × Nat → Option OpClass
  | (.Displacement, 1) => some .ConditionalDisplacement
  | (.Fourier, 1) => some .ConditionalParity
  | (.Squeezing, 1) => some .ConditionalSqueezing
  | (.Beamsplitter, 1) => some .ConditionalBeamsplitter
  | (.TwoModeSqueezing, 1) => some .ConditionalTwoModeSqueezing
  | (.TwoModeSum, 1) => some .ConditionalTwoModeSum
  | (.RZ, 1) => some .IsingZZ
  | (.IsingZZ, 1) => some .MultiRZ
  | _ => none

/-- No operator class anywhere in the repository defines the
`_qubit_conditioned` attribute tested by `QubitConditioned.has_decomposition`,
so `hasattr(self.base, "_qubit_conditioned")` is `False` for every base. -/
def hasQubitConditionedAttr : OpClass → Bool := fun _ => false

/-- `QubitConditioned.has_decomposition` for a plain `QubitConditioned` node
(whose `compute_decomposition` is not overridden): true when there is more than
one control wire, or a lookup-table hit, or the base class is one of
`GlobalPhase`, `Identity`, `Rotation`, or the base carries the
`_qubit_conditioned` attribute (source lines 96-119). -/
def qcondHasDecomposition (base : Op) (controlWires : List Wire) : Bool :=
  if 1 < controlWires.length then true
  else if (base_to_custom_conditioned_op (base.cls, controlWires.length)).isSome then true
  else if base.cls = .GlobalPhase ∨ base.cls = .Identity ∨ base.cls = .Rotation then true
  else if controlWires.length = 1 ∧ hasQubitConditionedAttr base.cls then true
  else false

/-- `_decompose_custom_op(op)` for `op = QubitConditioned(base, control_wires)`:
lookup-table hit first; then the `MultiRZ`, `Identity` and `GlobalPhase`
special cases; then the CNOT-ladder reduction for at least two control wires;
finally the `Rotation` factor-of-two case; `None` otherwise. -/
def decomposeCustomOp (base : Op) (controlWires : List Wire) : Option (List Op) :=
  match base_to_custom_conditioned_op (base.cls, controlWires.length) with
  | some target => some [.gate ⟨target, base.data, controlWires ++ base.wires⟩]
  | none =>
    if base.cls = .MultiRZ then
      some [.gate ⟨.MultiRZ, base.data, controlWires ++ base.wires⟩]
    else if base.cls = .Identity then
      some [.gate ⟨.Identity, [], controlWires ++ base.wires⟩]
    else if base.cls = .GlobalPhase then
      some [.gate ⟨.MultiRZ, [2 * base.data.headD 0], controlWires⟩]
    else if 2 ≤ controlWires.length then
      let cnots := (controlWires.dropLast.zip controlWires.tail).map
        (fun p => Op.gate ⟨.CNOT, [], [p.1, p.2]⟩)
      some (cnots ++ [.qcond base [controlWires.getLastD (.nat 0)]] ++ cnots.reverse)
    else if base.cls = .Rotation then
      some [.gate ⟨.ConditionalRotation, [2 * base.data.headD 0],
                   controlWires ++ base.wires⟩]
    else none

/-- `QubitConditioned.decomposition()`: raise `DecompositionUndefinedError` when
`_decompose_custom_op` returns `None`, else return its list. -/
def qcondDecomposition (base : Op) (controlWires : List Wire) :
    Except Unit (List Op) :=
  match decomposeCustomOp base controlWires with
  | some decomp => .ok decomp
  | none => .error ()

-- Helper: successful construction of a QubitConditioned node.

theorem mkQubitConditioned_ok (base : Op) (cws : List Wire)
    (hnd : cws.Nodup) (h : ∀ w ∈ cws, w ∉ base.wires) :
    mkQubitConditioned base cws = .ok (.qcond base cws) := by
  rw [mkQubitConditioned, if_pos hnd, if_neg]
  simp only [List.any_eq_true, decide_eq_true_eq, not_exists, not_and]
  intro w hw hmem
  exact h w hmem hw

/-- C1: for every base operator with an entry in the single-control lookup
table, the one-control conditioned node constructs successfully and its
decomposition is exactly one closed-form gate carrying the base's parameters on
wires `[control] ++ base wires`: Displacement→ConditionalDisplacement,
Fourier→ConditionalParity, Squeezing→ConditionalSqueezing,
Beamsplitter→ConditionalBeamsplitter, TwoModeSqueezing→ConditionalTwoModeSqueezing,
TwoModeSum→ConditionalTwoModeSum, RZ→IsingZZ, IsingZZ→MultiRZ. -/
theorem c1_known_gate_decomposition_exactness
    (α φ θ lam : ℚ) (c w w1 w2 : Wire)
    (hw : c ≠ w) (h1 : c ≠ w1) (h2 : c ≠ w2) :
    (mkQubitConditioned (.gate ⟨.Displacement, [α, φ], [w]⟩) [c]
        = .ok (.qcond (.gate ⟨.Displacement, [α, φ], [w]⟩) [c]) ∧
      decomposeCustomOp (.gate ⟨.Displacement, [α, φ], [w]⟩) [c]
        = some [.gate ⟨.ConditionalDisplacement, [α, φ], [c, w]⟩]) ∧
    (mkQubitConditioned (.gate ⟨.Fourier, [], [w]⟩) [c]
        = .ok (.qcond (.gate ⟨.Fourier, [], [w]⟩) [c]) ∧
      decomposeCustomOp (.gate ⟨.Fourier, [], [w]⟩) [c]
        = some [.gate ⟨.ConditionalParity, [], [c, w]⟩]) ∧
    (mkQubitConditioned (.gate ⟨.Squeezing, [α, φ], [w]⟩) [c]
        = .ok (.qcond (.gate ⟨.Squeezing, [α, φ], [w]⟩) [c]) ∧
      decomposeCustomOp (.gate ⟨.Squeezing, [α, φ], [w]⟩) [c]
        = some [.gate ⟨.ConditionalSqueezing, [α, φ], [c, w]⟩]) ∧
    (mkQubitConditioned (.gate ⟨.Beamsplitter, [α, φ], [w1, w2]⟩) [c]
        = .ok (.qcond (.gate ⟨.Beamsplitter, [α, φ], [w1, w2]⟩) [c]) ∧
      decomposeCustomOp (.gate ⟨.Beamsplitter, [α, φ], [w1, w2]⟩) [c]
        = some [.gate ⟨.ConditionalBeamsplitter, [α, φ], [c, w1, w2]⟩]) ∧
    (mkQubitConditioned (.gate ⟨.TwoModeSqueezing, [α, φ], [w1, w2]⟩) [c]
        = .ok (.qcond (.gate ⟨.TwoModeSqueezing, [α, φ], [w1, w2]⟩) [c]) ∧
      decomposeCustomOp (.gate ⟨.TwoModeSqueezing, [α, φ], [w1, w2]⟩) [c]
        = some [.gate ⟨.ConditionalTwoModeSqueezing, [α, φ], [c, w1, w2]⟩]) ∧
    (mkQubitConditioned (.gate ⟨.TwoModeSum, [lam], [w1, w2]⟩) [c]
        = .ok (.qcond (.gate ⟨.TwoModeSum, [lam], [w1, w2]⟩) [c]) ∧
      decomposeCustomOp (.gate ⟨.TwoModeSum, [lam], [w1, w2]⟩) [c]
        = some [.gate ⟨.ConditionalTwoModeSum, [lam], [c, w1, w2]⟩]) ∧
    (mkQubitConditioned (.gate ⟨.RZ, [θ], [w]⟩) [c]
        = .ok (.qcond (.gate ⟨.RZ, [θ], [w]⟩) [c]) ∧
      decomposeCustomOp (.gate ⟨.RZ, [θ], [w]⟩) [c]
        = some [.gate ⟨.IsingZZ, [θ], [c, w]⟩]) ∧
    (mkQubitConditioned (.gate ⟨.IsingZZ, [θ], [w1, w2]⟩) [c]
        = .ok (.qcond (.gate ⟨.IsingZZ, [θ], [w1, w2]⟩) [c]) ∧
      decomposeCustomOp (.gate ⟨.IsingZZ, [θ], [w1, w2]⟩) [c]
        = some [.gate ⟨.MultiRZ, [θ], [c, w1, w2]⟩]) := by
  have hmem1 : ∀ x ∈ [c], x ∉ ([w] : List Wire) := by
    intro x hx
    simp only [List.mem_singleton] at hx ⊢
    subst hx
    exact hw
  have hmem2 : ∀ x ∈ [c], x ∉ ([w1, w2] : List Wire) := by
    intro x hx
    simp only [List.mem_singleton] at hx
    subst hx
    intro hmem
    rcases List.mem_cons.mp hmem with h | h
    · exact h1 h
    · exact h2 (List.mem_singleton.mp h)
  refine ⟨⟨?_, rfl⟩, ⟨?_, rfl⟩, ⟨?_, rfl⟩, ⟨?_, rfl⟩, ⟨?_, rfl⟩, ⟨?_, rfl⟩,
    ⟨?_, rfl⟩, ⟨?_, rfl⟩⟩ <;>
    first
      | exact mkQubitConditioned_ok _ [c] (by simp) hmem1
      | exact mkQubitConditioned_ok _ [c] (by simp) hmem2

/-- Witness for C1 at concrete inputs (the Displacement entry, parameters 1, 2,
control wire 0, base wire 1). -/
theorem c1_known_gate_decomposition_exactness_witness :
    mkQubitConditioned (.gate ⟨.Displacement, [1, 2], [.nat 1]⟩) [.nat 0]
        = .ok (.qcond (.gate ⟨.Displacement, [1, 2], [.nat 1]⟩) [.nat 0]) ∧
    decomposeCustomOp (.gate ⟨.Displacement, [1, 2], [.nat 1]⟩) [.nat 0]
        = some [.gate ⟨.ConditionalDisplacement, [1, 2], [.nat 0, .nat 1]⟩] :=
  (c1_known_gate_decomposition_exactness 1 2 3 4 (.nat 0) (.nat 1) (.nat 1) (.nat 2)
    (by decide) (by decide) (by decide)).1

-- Helper: the lookup table has no entry with two control wires.

theorem base_to_custom_conditioned_op_two (cls : OpClass) :
    base_to_custom_conditioned_op (cls, 2) = none := by
  cases cls <;> rfl

/-- C2 counterexample: the claim "the CNOT-ladder rule applies to every base U"
fails on the code.  For base `MultiRZ(1, [2])` with control wires `[0, 1]`,
`_decompose_custom_op` hits the `isinstance(op.base, qml.MultiRZ)` special case
before the multi-control ladder branch and yields the single extended
`MultiRZ(1, [0, 1, 2])`, not the three-element CNOT sandwich. -/
theorem c2_cnot_ladder_counterexample :
    decomposeCustomOp (.gate ⟨.MultiRZ, [1], [.nat 2]⟩) [.nat 0, .nat 1]
        = some [.gate ⟨.MultiRZ, [1], [.nat 0, .nat 1, .nat 2]⟩] ∧
    decomposeCustomOp (.gate ⟨.MultiRZ, [1], [.nat 2]⟩) [.nat 0, .nat 1]
        ≠ some [.gate ⟨.CNOT, [], [.nat 0, .nat 1]⟩,
                .qcond (.gate ⟨.MultiRZ, [1], [.nat 2]⟩) [.nat 1],
                .gate ⟨.CNOT, [], [.nat 0, .nat 1]⟩] := by
  constructor
  · rfl
  · decide

/-- C2 (amended): for every base operator whose class is not `MultiRZ`,
`Identity` or `GlobalPhase` (those hit earlier special cases in
`_decompose_custom_op`) and every pair of distinct control wires `[c1, c2]`
disjoint from the base's wires, the two-control conditioned node constructs
successfully and decomposes into exactly
`[CNOT(c1,c2), QubitConditioned(base, [c2]), CNOT(c1,c2)]`, in that order. -/
theorem c2_amended_cnot_ladder (base : Op) (c1 c2 : Wire)
    (hcc : c1 ≠ c2) (h1 : c1 ∉ base.wires) (h2 : c2 ∉ base.wires)
    (hm : base.cls ≠ .MultiRZ) (hi : base.cls ≠ .Identity)
    (hg : base.cls ≠ .GlobalPhase) :
    mkQubitConditioned base [c1, c2] = .ok (.qcond base [c1, c2]) ∧
    decomposeCustomOp base [c1, c2] =
      some [.gate ⟨.CNOT, [], [c1, c2]⟩, .qcond base [c2],
            .gate ⟨.CNOT, [], [c1, c2]⟩] := by
  constructor
  · refine mkQubitConditioned_ok base [c1, c2] (by simp [hcc]) ?_
    intro x hx
    rcases List.mem_cons.mp hx with h | h
    · subst h; exact h1
    · rw [List.mem_singleton.mp h]; exact h2
  · show decomposeCustomOp base [c1, c2] = _
    rw [decomposeCustomOp]
    rw [show ([c1, c2] : List Wire).length = 2 from rfl,
      base_to_custom_conditioned_op_two]
    simp [hm, hi, hg]

/-- Witness for C2's amended theorem at concrete inputs: base
`Displacement(1, 2, [5])`, control wires `[0, 1]`. -/
theorem c2_amended_cnot_ladder_witness :
    mkQubitConditioned (.gate ⟨.Displacement, [1, 2], [.nat 5]⟩) [.nat 0, .nat 1]
        = .ok (.qcond (.gate ⟨.Displacement, [1, 2], [.nat 5]⟩) [.nat 0, .nat 1]) ∧
    decomposeCustomOp (.gate ⟨.Displacement, [1, 2], [.nat 5]⟩) [.nat 0, .nat 1] =
      some [.gate ⟨.CNOT, [], [.nat 0, .nat 1]⟩,
            .qcond (.gate ⟨.Displacement, [1, 2], [.nat 5]⟩) [.nat 1],
            .gate ⟨.CNOT, [], [.nat 0, .nat 1]⟩] :=
  c2_amended_cnot_ladder (.gate ⟨.Displacement, [1, 2], [.nat 5]⟩) (.nat 0) (.nat 1)
    (by decide) (by decide) (by decide) (by decide) (by decide) (by decide)

/-- C3: with a well-formed (duplicate-free) control-wire list, constructing
`QubitConditioned(base, control_wires)` raises `ValueError` exactly when the
control wires intersect the base's wires (raised immediately by the
constructor, modelled as the returned `Except` error); on success the node's
`wires` property is `control_wires ++ base.wires`, and whenever the base has a
generator the node's generator is
`prod(Z(c1), ..., Z(ck), base.generator())`. -/
theorem c3_construction_contract (base : Op) (cws : List Wire)
    (hnd : cws.Nodup) :
    (mkQubitConditioned base cws = .error .valueError ↔
        ∃ w ∈ base.wires, w ∈ cws) ∧
    (∀ qc, mkQubitConditioned base cws = .ok qc →
        qc.wires = cws ++ base.wires ∧
        (base.hasGenerator = true →
          qc.generator = .prod (cws.map GenExpr.Z ++ [base.generator]))) := by
  constructor
  · rw [mkQubitConditioned, if_pos hnd]
    by_cases hx : base.wires.any (fun w => decide (w ∈ cws)) = true
    · rw [if_pos hx]
      simp only [List.any_eq_true, decide_eq_true_eq] at hx
      exact ⟨fun _ => hx, fun _ => rfl⟩
    · rw [if_neg hx]
      simp only [List.any_eq_true, decide_eq_true_eq] at hx
      constructor
      · intro h
        exact absurd h (by simp)
      · intro h
        exact absurd h hx
  · intro qc hqc
    rw [mkQubitConditioned, if_pos hnd] at hqc
    by_cases hx : base.wires.any (fun w => decide (w ∈ cws)) = true
    · rw [if_pos hx] at hqc
      exact absurd hqc (by simp)
    · rw [if_neg hx] at hqc
      have hqc' : qc = .qcond base cws := by
        cases hqc
        rfl
      subst hqc'
      exact ⟨rfl, fun _ => rfl⟩

/-- Witness for C3 at concrete inputs: base `RZ(1, [1])` (which has a
generator), control wire `[0]`; and the intersecting case base `RZ(1, [0])`,
control `[0]`, which yields the `ValueError`. -/
theorem c3_construction_contract_witness :
    (Op.qcond (.gate ⟨.RZ, [1], [.nat 1]⟩) [.nat 0]).wires
        = [.nat 0] ++ (Op.gate ⟨.RZ, [1], [.nat 1]⟩).wires ∧
    (Op.qcond (.gate ⟨.RZ, [1], [.nat 1]⟩) [.nat 0]).generator
        = .prod ([Wire.nat 0].map GenExpr.Z
            ++ [(Op.gate ⟨.RZ, [1], [.nat 1]⟩).generator]) ∧
    mkQubitConditioned (.gate ⟨.RZ, [1], [.nat 0]⟩) [.nat 0]
        = .error .valueError := by
  have hok := (c3_construction_contract (.gate ⟨.RZ, [1], [.nat 1]⟩) [.nat 0]
    (by decide)).2 (.qcond (.gate ⟨.RZ, [1], [.nat 1]⟩) [.nat 0]) rfl
  have herr := (c3_construction_contract (.gate ⟨.RZ, [1], [.nat 0]⟩) [.nat 0]
    (by decide)).1.mpr ⟨.nat 0, by decide, by decide⟩
  exact ⟨hok.1, hok.2 (by decide), herr⟩

/-- C9: `has_decomposition` is sufficient for `decomposition()` to succeed —
whenever it returns `True`, `_decompose_custom_op` returns a list — but not
necessary: for base `MultiRZ(θ, ws)` and a single control wire `c ∉ ws`,
`has_decomposition` is `False` while `decomposition()` still returns
`[MultiRZ(θ, [c] ++ ws)]`. -/
theorem c9_has_decomposition_sufficient_not_necessary :
    (∀ (base : Op) (cws : List Wire),
        qcondHasDecomposition base cws = true →
        (decomposeCustomOp base cws).isSome = true) ∧
    (∀ (θ : ℚ) (ws : List Wire) (c : Wire), c ∉ ws →
        qcondHasDecomposition (.gate ⟨.MultiRZ, [θ], ws⟩) [c] = false ∧
        decomposeCustomOp (.gate ⟨.MultiRZ, [θ], ws⟩) [c]
          = some [.gate ⟨.MultiRZ, [θ], c :: ws⟩]) := by
  constructor
  · intro base cws h
    rw [decomposeCustomOp]
    cases hlook : base_to_custom_conditioned_op (base.cls, cws.length) with
    | some target => rfl
    | none =>
      by_cases hm : base.cls = .MultiRZ
      · simp [hm]
      · by_cases hi : base.cls = .Identity
        · simp [hm, hi]
        · by_cases hg : base.cls = .GlobalPhase
          · simp [hm, hi, hg]
          · by_cases hlen : 2 ≤ cws.length
            · simp [hm, hi, hg, hlen]
            · by_cases hr : base.cls = .Rotation
              · simp [hm, hi, hg, hlen, hr]
              · exfalso
                rw [qcondHasDecomposition] at h
                rw [if_neg (by omega), hlook] at h
                simp [hm, hi, hg, hr, hasQubitConditionedAttr] at h
  · intro θ ws c _
    exact ⟨rfl, rfl⟩

/-- Witness for C9 at concrete inputs: a lookup-table base (Displacement) with
`has_decomposition = True` decomposes, while the conditioned
`MultiRZ(1, [1])` with control `[0]` reports no decomposition yet decomposes to
`MultiRZ(1, [0, 1])`. -/
theorem c9_has_decomposition_witness :
    (decomposeCustomOp (.gate ⟨.Displacement, [1, 2], [.nat 1]⟩) [.nat 0]).isSome
        = true ∧
    qcondHasDecomposition (.gate ⟨.MultiRZ, [1], [.nat 1]⟩) [.nat 0] = false ∧
    decomposeCustomOp (.gate ⟨.MultiRZ, [1], [.nat 1]⟩) [.nat 0]
        = some [.gate ⟨.MultiRZ, [1], [.nat 0, .nat 1]⟩] :=
  ⟨c9_has_decomposition_sufficient_not_necessary.1
      (.gate ⟨.Displacement, [1, 2], [.nat 1]⟩) [.nat 0] (by decide),
   (c9_has_decomposition_sufficient_not_necessary.2 1 [.nat 1] (.nat 0)
      (by decide)).1,
   (c9_has_decomposition_sufficient_not_necessary.2 1 [.nat 1] (.nat 0)
      (by decide)).2⟩

-- ===========================================================================
-- Resource representation (decomposition/resources.py)
-- ===========================================================================

/-- `resource_params` payloads: either a base gate's own resource dictionary
(carried opaquely; most gate classes in the repository use an empty dict, the
contents are never inspected by `qubit_conditioned_resource_rep`), or the
`{"base_class", "base_params", "num_control_wires"}` dictionary of a
`QubitConditioned` node. -/
inductive BaseParams where
  | plain (data : List ℚ)
  | nested (base_class : OpClass) (base_params : BaseParams)
      (num_control_wires : Nat)
deriving DecidableEq

/-- `QubitConditioned.resource_params`:
`{"base_class": type(base), "base_params": base.resource_params(),
"num_control_wires": len(control_wires)}`; a plain gate contributes its own
resource dictionary. -/
def Op.resourceParams : Op → BaseParams
  | .gate g => .plain g.data
  | .qcond base cws => .nested base.cls base.resourceParams cws.length

/-- The result of `qubit_conditioned_resource_rep`: either
`qml.resource_rep(cls)` for a known parameterless closed-form gate class, or a
`CompressedResourceOp(QubitConditioned, {...})` key. -/
inductive ResourceRep where
  | simple (cls : OpClass)
  | compressed (cls : OpClass) (params : BaseParams)
deriving DecidableEq

/-- `custom_qubit_controlled_op_to_base()`: custom gates that are themselves
qubit-conditioned versions of a simpler base gate. -/
def custom_qubit_controlled_op_to_base : OpClass → Option OpClass
  | .ConditionalDisplacement => some .Displacement
  | .ConditionalSqueezing => some .Squeezing
  | .ConditionalParity => some .Fourier
  | .ConditionalTwoModeSqueezing => some .TwoModeSqueezing
  | .ConditionalTwoModeSum => some .TwoModeSum
  | .ConditionalBeamsplitter => some .Beamsplitter
  | .IsingZZ => some .RZ
  | .MultiRZ => some .RZ
  | _ => none

/-- `num_wires` of the classes involved in the custom-gate wire-count
adjustment (single-qumode conditional gates act on 1 qubit + 1 qumode, the
two-qumode ones on 1 qubit + 2 qumodes).  `MultiRZ` has a variable wire count
(`num_wires = None` in pennylane, so the adjustment arithmetic would fail
there at runtime); the value recorded here is never reached by the theorems
below, which evaluate identical expressions on both sides. -/
def opClassNumWires : OpClass → Nat
  | .Displacement | .Squeezing | .Fourier | .Rotation | .RZ => 1
  | .Beamsplitter | .TwoModeSqueezing | .TwoModeSum | .IsingZZ => 2
  | .ConditionalDisplacement | .ConditionalSqueezing | .ConditionalParity
  | .ConditionalRotation => 2
  | .ConditionalBeamsplitter | .ConditionalTwoModeSqueezing
  | .ConditionalTwoModeSum => 3
  | .CNOT => 2
  | .Identity | .GlobalPhase => 1
  | .MultiRZ => 0
  | .QubitConditionedCls => 0
  | .other _ => 0

/-- `qubit_conditioned_resource_rep(base_class, base_params, num_control_wires)`:
first recursively flatten a nested `QubitConditioned` base by adding its
control count; then use a known conditioned-gate identity from the lookup
table; then the `Rotation → ConditionalRotation` special case; then rewrite a
custom conditioned gate class to its own base with an adjusted control count;
finally build the `CompressedResourceOp` key. -/
def qubit_conditioned_resource_rep :
    OpClass → BaseParams → Nat → ResourceRep
  | .QubitConditionedCls, .nested cls params n, num_control_wires =>
      qubit_conditioned_resource_rep cls params (num_control_wires + n)
  | base_class, base_params, num_control_wires =>
    match base_to_custom_conditioned_op (base_class, num_control_wires) with
    | some known_decomp => .simple known_decomp
    | none =>
      if base_class = .Rotation then .simple .ConditionalRotation
      else
        match custom_qubit_controlled_op_to_base base_class with
        | some known_custom_gate =>
            .compressed .QubitConditionedCls
              (.nested known_custom_gate base_params
                (num_control_wires + opClassNumWires base_class
                  - opClassNumWires known_custom_gate))
        | none =>
            .compressed .QubitConditionedCls
              (.nested base_class base_params num_control_wires)

/-- The resource-level flattening of a `QubitConditioned` node: apply
`qubit_conditioned_resource_rep` to its `resource_params` fields. -/
def flattenConditioned : Op → Option ResourceRep
  | .qcond base cws =>
      some (qubit_conditioned_resource_rep base.cls base.resourceParams
        cws.length)
  | .gate _ => none

/-- C4: nested conditioned operators are recursively flattened before any
lookup-table reasoning: `qubit_conditioned_resource_rep` applied to a
`QubitConditioned` base with inner control count `n1` and outer control count
`n2` equals `qubit_conditioned_resource_rep(U, p, n1 + n2)`; consequently
`flatten(QubitConditioned(QubitConditioned(U, [a]), [b]))` equals
`flatten(QubitConditioned(U, [b, a]))` for any base gate and disjoint wires. -/
theorem c4_nested_conditioned_flattening :
    (∀ (U : OpClass) (p : BaseParams) (n1 n2 : Nat), 1 ≤ n1 → 1 ≤ n2 →
        qubit_conditioned_resource_rep .QubitConditionedCls (.nested U p n1) n2
          = qubit_conditioned_resource_rep U p (n1 + n2)) ∧
    (∀ (g : GateData) (a b : Wire), a ≠ b → a ∉ g.wires → b ∉ g.wires →
        flattenConditioned (.qcond (.qcond (.gate g) [a]) [b])
          = flattenConditioned (.qcond (.gate g) [b, a])) := by
  constructor
  · intro U p n1 n2 _ _
    show qubit_conditioned_resource_rep U p (n2 + n1) = _
    rw [Nat.add_comm]
  · intro g a b _ _ _
    show some (qubit_conditioned_resource_rep g.cls (.plain g.data) (1 + 1))
      = some (qubit_conditioned_resource_rep g.cls (.plain g.data) 2)
    rfl

/-- Witness for C4 at concrete inputs: a doubly-nested conditioned
`Displacement` with one control wire at each level flattens to the same
resource key as the directly two-controlled version. -/
theorem c4_nested_conditioned_flattening_witness :
    qubit_conditioned_resource_rep .QubitConditionedCls
        (.nested .Displacement (.plain [1, 2]) 1) 1
      = qubit_conditioned_resource_rep .Displacement (.plain [1, 2]) (1 + 1) ∧
    flattenConditioned
        (.qcond (.qcond (.gate ⟨.Displacement, [1, 2], [.nat 2]⟩) [.nat 0])
          [.nat 1])
      = flattenConditioned
          (.qcond (.gate ⟨.Displacement, [1, 2], [.nat 2]⟩) [.nat 1, .nat 0]) :=
  ⟨c4_nested_conditioned_flattening.1 .Displacement (.plain [1, 2]) 1 1
      (by decide) (by decide),
   c4_nested_conditioned_flattening.2 ⟨.Displacement, [1, 2], [.nat 2]⟩
      (.nat 0) (.nat 1) (by decide) (by decide) (by decide)⟩

-- ===========================================================================
-- Static analysis result and the Sandia QSCOUT device
-- (devices/sandia_qscout/device.py)
-- ===========================================================================

/-- `StaticAnalysisResult`: the qubit wire-set and the qumode wire-set of an
analyzed circuit (pennylane `Wires` are ordered sequences of unique labels,
modelled as lists). -/
structure StaticAnalysisResult where
  qubits : List Wire
  qumodes : List Wire
deriving DecidableEq

/-- `DeviceError` variants raised by the device code under verification. -/
inductive DeviceError where
  | qubitOverflow (count allowed : Nat)
  | qumodeOverflow (count : Nat) (allowed : Int)
  | noLayout
  | tooManyQubits (requested : Int) (available : Nat)
deriving DecidableEq

/-- `max_qubits = max_qubits or len(sa_res.qubits)` in `layout_wires`: Python's
`or` falls back to the analyzed qubit count when `max_qubits` is `None` — or
`0`, which is falsy. -/
def resolveMaxQubits (maxQubits : Option Nat)
    (saRes : StaticAnalysisResult) : Nat :=
  match maxQubits with
  | none => saRes.qubits.length
  | some 0 => saRes.qubits.length
  | some (n + 1) => n + 1

/-- `max_qumodes = 2 * max_qubits if use_com_modes else 2 * max_qubits - 2`
(an `int` in Python, so the subtraction may go negative). -/
def qumodeBudget (maxQubits : Nat) (useComModes : Bool) : Int :=
  if useComModes then 2 * maxQubits else 2 * maxQubits - 2

/-- Whether an `Except` carries a success value. -/
def isOkExcept {ε α : Type} : Except ε α → Bool
  | .ok _ => true
  | .error _ => false

/-- The `layout_wires` transform: resolve the qubit budget, raise `DeviceError`
on qubit overflow, then on qumode overflow, and only then run the CSP layout
(`_constrained_layout`, abstracted as the `solve` argument standing for
constructing the `constraint.Problem` and calling `getSolution()`); a `None`
solution raises `DeviceError`, otherwise the wire map is applied to the tape. -/
def layout_wires (solve : StaticAnalysisResult → Nat → Bool → Option (Wire → Wire))
    (saRes : StaticAnalysisResult) (maxQubits : Option Nat)
    (useComModes : Bool) : Except DeviceError (Wire → Wire) :=
  let mq := resolveMaxQubits maxQubits saRes
  if saRes.qubits.length > mq then
    .error (.qubitOverflow saRes.qubits.length mq)
  else if (saRes.qumodes.length : Int) > qumodeBudget mq useComModes then
    .error (.qumodeOverflow saRes.qumodes.length (qumodeBudget mq useComModes))
  else
    match solve saRes mq useComModes with
    | none => .error .noLayout
    | some wireMap => .ok wireMap

/-- C5 counterexample: the claim fails as stated at `max_qubits = 0`.  The
analyzed qubit count (1) exceeds `max_qubits` (0), yet `layout_wires` raises no
`DeviceError` and reaches the solver, because Python's
`max_qubits or len(sa_res.qubits)` treats `0` as unset and replaces it by the
analyzed qubit count. -/
theorem c5_layout_budget_counterexample :
    (StaticAnalysisResult.mk [.nat 0] []).qubits.length > 0 ∧
    isOkExcept (layout_wires (fun _ _ _ => some (fun w => w))
      ⟨[.nat 0], []⟩ (some 0) false) = true := by
  constructor
  · decide
  · rfl

/-- C5 (amended): with `max_qubits` read as the resolved budget of
`layout_wires` (Python falls back to the analyzed qubit count when the argument
is `None` or `0`), any circuit whose qubit count exceeds that budget, or whose
qumode count exceeds `2·max_qubits` (center-of-mass modes enabled) or
`2·max_qubits − 2` (disabled), makes `layout_wires` raise `DeviceError` no
matter what the layout solver would answer — the solver is never consulted and
the circuit is never truncated. -/
theorem c5_amended_layout_budget_rejection
    (saRes : StaticAnalysisResult) (maxQubits : Option Nat)
    (useComModes : Bool)
    (h : saRes.qubits.length > resolveMaxQubits maxQubits saRes ∨
      (saRes.qumodes.length : Int) >
        qumodeBudget (resolveMaxQubits maxQubits saRes) useComModes) :
    ∀ solve, ∃ e, layout_wires solve saRes maxQubits useComModes
        = .error e ∧
      (e = .qubitOverflow saRes.qubits.length
            (resolveMaxQubits maxQubits saRes) ∨
       e = .qumodeOverflow saRes.qumodes.length
            (qumodeBudget (resolveMaxQubits maxQubits saRes) useComModes)) := by
  intro solve
  rw [layout_wires]
  by_cases hq : saRes.qubits.length > resolveMaxQubits maxQubits saRes
  · rw [if_pos hq]
    exact ⟨_, rfl, Or.inl rfl⟩
  · have hm : (saRes.qumodes.length : Int) >
        qumodeBudget (resolveMaxQubits maxQubits saRes) useComModes := by
      rcases h with h | h
      · exact absurd h hq
      · exact h
    rw [if_neg hq, if_pos hm]
    exact ⟨_, rfl, Or.inr rfl⟩

/-- Witness for C5's amended theorem at concrete inputs: two qubits against a
budget of one. -/
theorem c5_amended_layout_budget_rejection_witness :
    ∃ e, layout_wires (fun _ _ _ => none) ⟨[.nat 0, .nat 1], []⟩ (some 1) false
        = .error e ∧
      (e = .qubitOverflow
            (StaticAnalysisResult.mk [.nat 0, .nat 1] []).qubits.length
            (resolveMaxQubits (some 1) ⟨[.nat 0, .nat 1], []⟩) ∨
       e = .qumodeOverflow
            (StaticAnalysisResult.mk [.nat 0, .nat 1] []).qumodes.length
            (qumodeBudget (resolveMaxQubits (some 1) ⟨[.nat 0, .nat 1], []⟩)
              false)) :=
  c5_amended_layout_budget_rejection ⟨[.nat 0, .nat 1], []⟩ (some 1) false
    (Or.inl (by decide)) (fun _ _ _ => none)

/-- `_get_device_qubits(max_qubits)`: the physical qubit indices
`range(max_qubits)`. -/
def getDeviceQubits (maxQubits : Nat) : List Wire :=
  (List.range maxQubits).map Wire.nat

/-- `_get_device_qumodes(max_qubits, use_com_modes)`: qumode addresses
`Qumode(m, i)` for `i in range(min_qumode_idx, max_qubits)` and `m in (0, 1)`,
where `min_qumode_idx = 1 - use_com_modes`. -/
def getDeviceQumodes (maxQubits : Nat) (useComModes : Bool) : List Wire :=
  let minIdx := if useComModes then 0 else 1
  (List.range' minIdx (maxQubits - minIdx)).flatMap
    (fun i => [Wire.mode ⟨0, i⟩, Wire.mode ⟨1, i⟩])

/-- `_get_allowed_device_wires(max_qubits, use_com_modes)`. -/
def getAllowedDeviceWires (maxQubits : Nat) (useComModes : Bool) : List Wire :=
  getDeviceQubits maxQubits ++ getDeviceQumodes maxQubits useComModes

/-- `QscoutIonTrap._max_qubits`: the fixed hardware maximum. -/
def QscoutIonTrap_max_qubits : Nat := 6

/-- The device state recorded by a successful `QscoutIonTrap.__init__`. -/
structure QscoutIonTrapState where
  wires : Option (List Wire)
  shots : Option Nat
  nQubits : Option Int
  optimize : Bool
  enableComModes : Bool
  useVirtualWires : Bool

/-- The wire list the constructor passes to `Device.__init__`: untouched when
`use_virtual_wires`, otherwise `_get_allowed_device_wires(n_qubits or
_max_qubits, enable_com_modes)` (Python `or`: `None` and `0` fall back). -/
def qscoutDeviceWires (wires : Option (List Wire)) (nQubits : Option Int)
    (enableComModes useVirtualWires : Bool) : Option (List Wire) :=
  if useVirtualWires then wires
  else
    let qubits : Int :=
      match nQubits with
      | none => QscoutIonTrap_max_qubits
      | some 0 => QscoutIonTrap_max_qubits
      | some n => n
    some (getAllowedDeviceWires qubits.toNat enableComModes)

/-- `QscoutIonTrap.__init__`: raise `DeviceError` when `n_qubits` is given and
exceeds `_max_qubits`; otherwise record the device options. -/
def initQscoutIonTrap (wires : Option (List Wire)) (shots : Option Nat)
    (nQubits : Option Int) (optimize enableComModes useVirtualWires : Bool) :
    Except DeviceError QscoutIonTrapState :=
  match nQubits with
  | some n =>
      if n > (QscoutIonTrap_max_qubits : Int) then
        .error (.tooManyQubits n QscoutIonTrap_max_qubits)
      else
        .ok ⟨qscoutDeviceWires wires (some n) enableComModes useVirtualWires,
          shots, some n, optimize, enableComModes, useVirtualWires⟩
  | none =>
      .ok ⟨qscoutDeviceWires wires none enableComModes useVirtualWires,
        shots, none, optimize, enableComModes, useVirtualWires⟩

/-- C10: the trapped-ion device has a fixed hardware maximum of 6 qubits —
`QscoutIonTrap.__init__` raises `DeviceError` immediately for `n_qubits > 6`
and accepts any `n_qubits ≤ 6` as well as `n_qubits = None`. -/
theorem c10_device_qubit_budget (wires : Option (List Wire))
    (shots : Option Nat) (optimize enableComModes useVirtualWires : Bool) :
    QscoutIonTrap_max_qubits = 6 ∧
    (∀ n : Int, 6 < n →
        initQscoutIonTrap wires shots (some n) optimize enableComModes
            useVirtualWires
          = .error (.tooManyQubits n 6)) ∧
    (∀ n : Int, n ≤ 6 →
        initQscoutIonTrap wires shots (some n) optimize enableComModes
            useVirtualWires
          = .ok ⟨qscoutDeviceWires wires (some n) enableComModes
                useVirtualWires,
              shots, some n, optimize, enableComModes, useVirtualWires⟩) ∧
    initQscoutIonTrap wires shots none optimize enableComModes useVirtualWires
      = .ok ⟨qscoutDeviceWires wires none enableComModes useVirtualWires,
          shots, none, optimize, enableComModes, useVirtualWires⟩ := by
  refine ⟨rfl, ?_, ?_, rfl⟩
  · intro n hn
    have hgt : n > (QscoutIonTrap_max_qubits : Int) := by
      show (6 : Int) < n
      exact hn
    rw [initQscoutIonTrap, if_pos hgt]
    rfl
  · intro n hn
    have hle : ¬ n > (QscoutIonTrap_max_qubits : Int) := by
      show ¬ (6 : Int) < n
      omega
    rw [initQscoutIonTrap, if_neg hle]

/-- Witness for C10 at concrete inputs: `n_qubits = 7` is rejected,
`n_qubits = 3` is accepted. -/
theorem c10_device_qubit_budget_witness :
    initQscoutIonTrap none none (some 7) true false true
        = .error (.tooManyQubits 7 6) ∧
    initQscoutIonTrap none none (some 3) true false true
        = .ok ⟨qscoutDeviceWires none (some 3) false true,
            none, some 3, true, false, true⟩ :=
  ⟨(c10_device_qubit_budget none none true false true).2.1 7 (by decide),
   (c10_device_qubit_budget none none true false true).2.2.1 3 (by decide)⟩

-- ===========================================================================
-- Layout CSP (_construct_csp / _constrained_layout)
-- ===========================================================================

/-- A circuit operation as seen by the layout pass: its (virtual) wires and the
per-gate hardware predicate — `is_gate_supported` evaluated on the operation
relabeled with candidate hardware wires (type-based dispatch in the source,
carried here as an abstract predicate on the substituted wire tuple). -/
structure TapeOp where
  wires : List Wire
  supported : List Wire → Bool

/-- Constraints added by `_construct_csp`: the global `AllDifferentConstraint`,
the identity pins `lambda assigned, w=w: assigned == w` for wires that already
carry hardware labels, and one per-operation hardware predicate. -/
inductive CSPConstraint where
  | allDifferent
  | pinned (w : Wire)
  | opSupported (ws : List Wire) (pred : List Wire → Bool)

/-- A `constraint.Problem`: variables with their domains, plus constraints. -/
structure CSProblem where
  vars : List (Wire × List Wire)
  constraints : List CSPConstraint

/-- The list of problem variables. -/
def CSProblem.varNames (p : CSProblem) : List Wire := p.vars.map Prod.fst

/-- Whether an assignment satisfies one constraint of a problem (the
`AllDifferentConstraint` with no explicit variable list ranges over all
problem variables, as in python-constraint). -/
def constraintHolds (p : CSProblem) (f : Wire → Wire) :
    CSPConstraint → Bool
  | .allDifferent =>
      p.varNames.all fun v => p.varNames.all fun v' =>
        decide (v = v') || decide (f v ≠ f v')
  | .pinned w => decide (f w = w)
  | .opSupported ws pred => pred (ws.map f)

/-- Whether `f` is a solution of the problem: every variable is assigned a
value of its domain and every constraint holds (the contract of
`problem.getSolution()`). -/
def isSolution (p : CSProblem) (f : Wire → Wire) : Bool :=
  p.vars.all (fun vd => decide (f vd.1 ∈ vd.2)) &&
  p.constraints.all (constraintHolds p f)

/-- `_construct_csp(tape, sa_res, hw_qubits, hw_qumodes)`: qubit variables over
the physical qubit domain and qumode variables over the physical qumode
domain; a global all-different constraint; identity pins for virtual wires
that already are hardware labels of their type; one predicate per operation. -/
def construct_csp (ops : List TapeOp) (saRes : StaticAnalysisResult)
    (hwQubits hwQumodes : List Wire) : CSProblem where
  vars := saRes.qubits.map (fun w => (w, hwQubits))
    ++ saRes.qumodes.map (fun w => (w, hwQumodes))
  constraints :=
    [.allDifferent]
    ++ (saRes.qubits.filter (fun w => decide (w ∈ hwQubits))).map .pinned
    ++ (saRes.qumodes.filter (fun w => decide (w ∈ hwQumodes))).map .pinned
    ++ ops.map (fun op => .opSupported op.wires op.supported)

-- The variable list of the constructed problem is exactly the virtual wires.

theorem construct_csp_varNames (ops : List TapeOp)
    (saRes : StaticAnalysisResult) (hwQubits hwQumodes : List Wire) :
    (construct_csp ops saRes hwQubits hwQumodes).varNames
      = saRes.qubits ++ saRes.qumodes := by
  simp only [CSProblem.varNames, construct_csp, List.map_append, List.map_map]
  rw [show (Prod.fst ∘ fun w => (w, hwQubits)) = id from rfl,
    show (Prod.fst ∘ fun w => (w, hwQumodes)) = id from rfl,
    List.map_id, List.map_id]

/-- C7: every assignment satisfying the CSP built by `_construct_csp` over the
device's physical wires (hence any non-`None` map returned by
`_constrained_layout`, which returns `problem.getSolution()`) is injective on
the circuit's wires and respects wire types: every analyzed qubit maps to a
physical qubit index below the budget and every analyzed qumode maps to a
physical qumode address. -/
theorem c7_layout_solution_injective_and_typed
    (ops : List TapeOp) (saRes : StaticAnalysisResult)
    (maxQubits : Nat) (useComModes : Bool) (f : Wire → Wire)
    (h : isSolution (construct_csp ops saRes (getDeviceQubits maxQubits)
          (getDeviceQumodes maxQubits useComModes)) f = true) :
    (∀ v ∈ saRes.qubits ++ saRes.qumodes,
        ∀ v' ∈ saRes.qubits ++ saRes.qumodes, v ≠ v' → f v ≠ f v') ∧
    (∀ w ∈ saRes.qubits, ∃ i, i < maxQubits ∧ f w = .nat i) ∧
    (∀ w ∈ saRes.qumodes, ∃ q : Qumode, f w = .mode q) := by
  rw [isSolution, Bool.and_eq_true, List.all_eq_true, List.all_eq_true] at h
  obtain ⟨hdom, hcons⟩ := h
  refine ⟨?_, ?_, ?_⟩
  · have had := hcons .allDifferent (by simp [construct_csp])
    rw [constraintHolds, construct_csp_varNames, List.all_eq_true] at had
    intro v hv v' hv' hne
    have := had v hv
    rw [List.all_eq_true] at this
    have := this v' hv'
    rcases Bool.or_eq_true _ _ |>.mp this with h | h
    · exact absurd (of_decide_eq_true h) hne
    · exact of_decide_eq_true h
  · intro w hw
    have hmem : (w, getDeviceQubits maxQubits)
        ∈ (construct_csp ops saRes (getDeviceQubits maxQubits)
            (getDeviceQumodes maxQubits useComModes)).vars := by
      rw [construct_csp]
      exact List.mem_append_left _ (List.mem_map.mpr ⟨w, hw, rfl⟩)
    have := of_decide_eq_true (hdom _ hmem)
    rw [getDeviceQubits, List.mem_map] at this
    obtain ⟨i, hi, hfi⟩ := this
    exact ⟨i, List.mem_range.mp hi, hfi.symm⟩
  · intro w hw
    have hmem : (w, getDeviceQumodes maxQubits useComModes)
        ∈ (construct_csp ops saRes (getDeviceQubits maxQubits)
            (getDeviceQumodes maxQubits useComModes)).vars := by
      rw [construct_csp]
      exact List.mem_append_right _ (List.mem_map.mpr ⟨w, hw, rfl⟩)
    have := of_decide_eq_true (hdom _ hmem)
    rw [getDeviceQumodes] at this
    simp only [List.mem_flatMap, List.mem_cons, List.mem_singleton] at this
    obtain ⟨i, _, hfi⟩ := this
    rcases hfi with hfi | hfi | hfi
    · exact ⟨⟨0, i⟩, hfi⟩
    · exact ⟨⟨1, i⟩, hfi⟩
    · exact absurd hfi (by simp)

/-- A concrete layout map used to witness C7. -/
def sampleLayout : Wire → Wire :=
  fun w => if w = .str ['q'] then .nat 0 else .mode ⟨0, 1⟩

/-- Witness for C7 at concrete inputs: on the circuit with one virtual qubit
`"q"` and one virtual qumode `"m"` against a 2-qubit device, the sample
assignment satisfies the constructed CSP, so the theorem yields that the two
wires get distinct physical resources. -/
theorem c7_layout_solution_witness :
    sampleLayout (.str ['q']) ≠ sampleLayout (.str ['m']) := by
  have h := c7_layout_solution_injective_and_typed [] ⟨[.str ['q']], [.str ['m']]⟩
    2 false sampleLayout (by decide)
  exact h.1 (.str ['q']) (by decide) (.str ['m']) (by decide) (by decide)

-- ===========================================================================
-- Static analyzer (sa.analyze)
-- ===========================================================================

/-- A circuit item (operation or measurement observable) as seen by the
analyzer: its type signature declares which of its wire positions are
qubit-typed and which are qumode-typed. -/
structure TypedOp where
  qubitWires : List Wire
  qumodeWires : List Wire
deriving DecidableEq

/-- `StaticAnalysisError`: a wire was inferred as qubit from one context and as
qumode from another; the offending wire is named. -/
inductive StaticAnalysisError where
  | aliasing (w : Wire)
deriving DecidableEq

/-- Order-preserving union of wire lists (pennylane `Wires` union keeps the
first occurrence of each label). -/
def unionWires (l new : List Wire) : List Wire :=
  l ++ new.filter (fun w => decide (w ∉ l))

/-- Modelled from the spec: one step of the static analyzer (the source files
`sa/base.py` and `sa/infer_wires.py` implementing `sa.analyze` are not among
the provided sources).  Per §4.1: walk every operation; each operation declares
which wire positions are qubit- vs. qumode-typed; union the wires into the
running qubit-set and qumode-set; if any wire is inferred as qubit in one
context and as qumode in another, fail with a `StaticAnalysisError` naming the
offending wire. -/
def analyzeStep (acc : StaticAnalysisResult) (op : TypedOp) :
    Except StaticAnalysisError StaticAnalysisResult :=
  match op.qubitWires.find?
      (fun w => decide (w ∈ acc.qumodes) || decide (w ∈ op.qumodeWires)) with
  | some w => .error (.aliasing w)
  | none =>
    match op.qumodeWires.find? (fun w => decide (w ∈ acc.qubits)) with
    | some w => .error (.aliasing w)
    | none =>
        .ok ⟨unionWires acc.qubits op.qubitWires,
          unionWires acc.qumodes op.qumodeWires⟩

/-- Modelled from the spec: fold the analyzer steps over the circuit items,
propagating the first aliasing failure. -/
def analyzeList (acc : StaticAnalysisResult) :
    List TypedOp → Except StaticAnalysisError StaticAnalysisResult
  | [] => .ok acc
  | op :: rest =>
    match analyzeStep acc op with
    | .error e => .error e
    | .ok acc' => analyzeList acc' rest

/-- Modelled from the spec: `sa.analyze(circuit)` walks every operation and
every measurement's observable, starting from empty wire-sets. -/
def analyze (ops measurements : List TypedOp) :
    Except StaticAnalysisError StaticAnalysisResult :=
  analyzeList ⟨[], []⟩ (ops ++ measurements)

theorem mem_unionWires (l new : List Wire) (w : Wire) :
    w ∈ unionWires l new ↔ w ∈ l ∨ w ∈ new := by
  rw [unionWires, List.mem_append, List.mem_filter]
  by_cases h : w ∈ l
  · simp [h]
  · simp [h]

-- Invariant of the analyzer fold: on success the accumulated qubit- and
-- qumode-sets stay disjoint and collect exactly the declared wires.

theorem analyzeList_ok_spec (items : List TypedOp) :
    ∀ acc res, analyzeList acc items = .ok res →
      (∀ w, ¬ (w ∈ acc.qubits ∧ w ∈ acc.qumodes)) →
      (∀ w, ¬ (w ∈ res.qubits ∧ w ∈ res.qumodes)) ∧
      (∀ w, w ∈ res.qubits ↔
          w ∈ acc.qubits ∨ ∃ op ∈ items, w ∈ op.qubitWires) ∧
      (∀ w, w ∈ res.qumodes ↔
          w ∈ acc.qumodes ∨ ∃ op ∈ items, w ∈ op.qumodeWires) := by
  induction items with
  | nil =>
    intro acc res h hdisj
    rw [analyzeList] at h
    cases h
    refine ⟨hdisj, ?_, ?_⟩ <;> intro w <;> simp
  | cons op rest ih =>
    intro acc res h hdisj
    rw [analyzeList] at h
    cases hstep : analyzeStep acc op with
    | error e => rw [hstep] at h; cases h
    | ok acc' =>
      rw [hstep] at h
      rw [analyzeStep] at hstep
      cases hq : op.qubitWires.find?
          (fun w => decide (w ∈ acc.qumodes) || decide (w ∈ op.qumodeWires)) with
      | some w => rw [hq] at hstep; cases hstep
      | none =>
        rw [hq] at hstep
        cases hm : op.qumodeWires.find? (fun w => decide (w ∈ acc.qubits)) with
        | some w => rw [hm] at hstep; cases hstep
        | none =>
          rw [hm] at hstep
          cases hstep
          have hqf : ∀ w ∈ op.qubitWires,
              w ∉ acc.qumodes ∧ w ∉ op.qumodeWires := by
            intro w hw
            have := List.find?_eq_none.mp hq w hw
            simp only [Bool.or_eq_true, decide_eq_true_eq, not_or] at this
            exact this
          have hmf : ∀ w ∈ op.qumodeWires, w ∉ acc.qubits := by
            intro w hw
            have := List.find?_eq_none.mp hm w hw
            simpa using this
          have hdisj' : ∀ w,
              ¬ (w ∈ unionWires acc.qubits op.qubitWires ∧
                 w ∈ unionWires acc.qumodes op.qumodeWires) := by
            intro w ⟨hw1, hw2⟩
            rw [mem_unionWires] at hw1 hw2
            rcases hw1 with hw1 | hw1 <;> rcases hw2 with hw2 | hw2
            · exact hdisj w ⟨hw1, hw2⟩
            · exact hmf w hw2 hw1
            · exact (hqf w hw1).1 hw2
            · exact (hqf w hw1).2 hw2
          obtain ⟨d, hq', hm'⟩ := ih _ res h hdisj'
          refine ⟨d, ?_, ?_⟩
          · intro w
            rw [hq' w, mem_unionWires]
            constructor
            · rintro ((h | h) | ⟨o, ho, hwo⟩)
              · exact Or.inl h
              · exact Or.inr ⟨op, List.mem_cons_self op rest, h⟩
              · exact Or.inr ⟨o, List.mem_cons_of_mem op ho, hwo⟩
            · rintro (h | ⟨o, ho, hwo⟩)
              · exact Or.inl (Or.inl h)
              · rcases List.mem_cons.mp ho with rfl | ho
                · exact Or.inl (Or.inr hwo)
                · exact Or.inr ⟨o, ho, hwo⟩
          · intro w
            rw [hm' w, mem_unionWires]
            constructor
            · rintro ((h | h) | ⟨o, ho, hwo⟩)
              · exact Or.inl h
              · exact Or.inr ⟨op, List.mem_cons_self op rest, h⟩
              · exact Or.inr ⟨o, List.mem_cons_of_mem op ho, hwo⟩
            · rintro (h | ⟨o, ho, hwo⟩)
              · exact Or.inl (Or.inl h)
              · rcases List.mem_cons.mp ho with rfl | ho
                · exact Or.inl (Or.inr hwo)
                · exact Or.inr ⟨o, ho, hwo⟩

/-- C6: for every circuit on which `analyze` succeeds, the returned
`StaticAnalysisResult`'s qubit wire-set and qumode wire-set are disjoint, and
their union is exactly the set of wires touched by any operation or
measurement. -/
theorem c6_wire_type_partition (ops measurements : List TypedOp)
    (res : StaticAnalysisResult)
    (h : analyze ops measurements = .ok res) :
    (∀ w, ¬ (w ∈ res.qubits ∧ w ∈ res.qumodes)) ∧
    (∀ w, (w ∈ res.qubits ∨ w ∈ res.qumodes) ↔
        ∃ op ∈ ops ++ measurements,
          w ∈ op.qubitWires ∨ w ∈ op.qumodeWires) := by
  obtain ⟨d, hq, hm⟩ := analyzeList_ok_spec (ops ++ measurements) ⟨[], []⟩ res h
    (by intro w ⟨h1, _⟩; cases h1)
  refine ⟨d, ?_⟩
  intro w
  rw [hq w, hm w]
  constructor
  · rintro ((h | ⟨o, ho, hwo⟩) | (h | ⟨o, ho, hwo⟩))
    · cases h
    · exact ⟨o, ho, Or.inl hwo⟩
    · cases h
    · exact ⟨o, ho, Or.inr hwo⟩
  · rintro ⟨o, ho, hwo | hwo⟩
    · exact Or.inl (Or.inr ⟨o, ho, hwo⟩)
    · exact Or.inr (Or.inr ⟨o, ho, hwo⟩)

/-- Witness for C6 at a concrete circuit: a hybrid gate on qubit 0 and qumode 1
followed by a measurement on qubit 0 analyzes successfully, and the theorem
gives disjointness and exact coverage. -/
theorem c6_wire_type_partition_witness :
    ¬ (Wire.nat 0 ∈ (StaticAnalysisResult.mk [.nat 0] [.nat 1]).qubits ∧
       Wire.nat 0 ∈ (StaticAnalysisResult.mk [.nat 0] [.nat 1]).qumodes) :=
  (c6_wire_type_partition [⟨[.nat 0], [.nat 1]⟩] [⟨[.nat 0], []⟩]
    ⟨[.nat 0], [.nat 1]⟩ rfl).1 (Wire.nat 0)
